import Mathlib

/-!
Verification development for the segmentation core of `ardusub_log_tools`
(`segment_reader.py`, `tlog_param.py`).

Timestamps are modelled as rationals (`ℚ`): the code only compares
timestamps and bounds with `<`/`>`, so the ordered field of rationals is a
faithful shallow embedding of the Python floats involved.  A MAVLink
message is opaque apart from its `_timestamp` attribute; we add a `data`
payload so distinct records can be told apart.  Python iterators become
lists of the not-yet-consumed elements, and `StopIteration` becomes an
explicit result constructor.
-/

/-- An opaque record: a payload plus the `_timestamp` attribute read by
`SegmentReader.__next__` (`getattr(msg, '_timestamp', 0.0)`). -/
structure Msg where
  data : Nat
  ts : ℚ
deriving DecidableEq

/-- A stream has nondecreasing timestamps. -/
def tsSorted (l : List Msg) : Prop :=
  l.Pairwise (fun a b => a.ts ≤ b.ts)

instance (l : List Msg) : Decidable (tsSorted l) :=
  inferInstanceAs (Decidable (l.Pairwise _))

/-- Decimal digits of `n`, most significant first, pushed onto `acc`: the
repeated division by 10 behind Python's decimal formatting of an integer.
The first argument is fuel (`n` itself suffices) so the recursion is
structural and concrete inputs evaluate inside the kernel. -/
def natDecimalDigitsAux : Nat → Nat → List Char → List Char
  | 0, _, acc => acc
  | fuel + 1, n, acc =>
    if n = 0 then acc
    else natDecimalDigitsAux fuel (n / 10) (Nat.digitChar (n % 10) :: acc)

/-- Decimal character string of a natural number. -/
def natDecimalChars (n : Nat) : List Char :=
  if n = 0 then ['0'] else natDecimalDigitsAux n n []

/-- Decimal character string of an integer (leading `-` when negative). -/
def intDecimalChars (i : Int) : List Char :=
  if i < 0 then '-' :: natDecimalChars i.natAbs else natDecimalChars i.natAbs

/-- Floor of a rational as an integer (`fdiv` rounds toward `-∞`, and the
denominator is positive). -/
def ratFloorZ (q : ℚ) : ℤ := Int.fdiv q.num q.den

/-- Round to the nearest integer, ties to even: the rounding used by
Python's `format(x, '.0f')`.  The fraction comparisons `frac < 1/2` and
`frac > 1/2` are cross-multiplied into integer comparisons
(`2*num ≶ (2*floor+1)*den`) so they evaluate by kernel reduction. -/
def roundHalfEven (q : ℚ) : ℤ :=
  let f := ratFloorZ q
  if 2 * q.num < (2 * f + 1) * (q.den : ℤ) then f
  else if (2 * f + 1) * (q.den : ℤ) < 2 * q.num then f + 1
  else if f % 2 = 0 then f else f + 1

/-- Python `f'{q :.0f}'`: the value rounded to an integer (ties to even)
and printed in decimal. -/
def formatDotZeroF (q : ℚ) : String :=
  String.mk (intDecimalChars (roundHalfEven q))

/-- The `Segment` of `segment_reader.py`: a `[start, end]` time window plus a
display name (`end` is a Lean keyword, hence the field name `end_`). -/
structure Segment where
  start : ℚ
  end_ : ℚ
  name : String
deriving DecidableEq

/-- The `Segment.__init__`: when no name is supplied it defaults to
`f'{start :.0f}_{end :.0f}'`. -/
def Segment.init (start end_ : ℚ) (name : Option String) : Segment :=
  { start := start
    end_ := end_
    name := name.getD (String.mk
      ((formatDotZeroF start).data ++ '_' :: (formatDotZeroF end_).data)) }

/-- Helper for `pySplit`: accumulates the current field (reversed) while
scanning the character list. -/
def pySplitAux (sep : Char) : List Char → List Char → List String
  | [], acc => [String.mk acc.reverse]
  | c :: cs, acc =>
    if c = sep then String.mk acc.reverse :: pySplitAux sep cs []
    else pySplitAux sep cs (c :: acc)

/-- Python `str.split(sep)` for a one-character separator: splits at every
occurrence, keeping empty fields (`''.split(',') == ['']`). -/
def pySplit (s : String) (sep : Char) : List String :=
  pySplitAux sep s.data []

/-- Leading sign of a numeric literal: returns (negative?, rest). -/
def splitSign : List Char → Bool × List Char
  | '+' :: rest => (false, rest)
  | '-' :: rest => (true, rest)
  | cs => (false, cs)

/-- Value of a digit character. -/
def digitVal (c : Char) : Nat := c.toNat - '0'.toNat

/-- Value of a big-endian digit string. -/
def digitsVal (ds : List Char) : Nat :=
  ds.foldl (fun a c => a * 10 + digitVal c) 0

/-- All characters are decimal digits. -/
def allDigits (ds : List Char) : Bool := ds.all (·.isDigit)

/-- Exact value of a parsed decimal literal: sign, the mantissa digits with
the decimal point removed, the number of fraction digits, and the
exponent.  The value is `± digits * 10^(e - fracLen)`; it is computed in
`ℤ`/`ℕ` and cast into `ℚ`, dividing only when the scaled exponent is
negative, so that integral literals evaluate by kernel reduction. -/
def decimalLiteralVal (neg : Bool) (mantDigits : List Char) (fracLen : Nat) (e : Int) : ℚ :=
  let e' := e - (fracLen : Int)
  let mag : ℚ :=
    if 0 ≤ e' then ((digitsVal mantDigits * 10 ^ e'.toNat : ℕ) : ℚ)
    else ((digitsVal mantDigits : ℕ) : ℚ) / ((10 ^ (-e').toNat : ℕ) : ℚ)
  if neg then -mag else mag

/-- Python `float(s)` on the decimal literal forms the tool feeds it
(`[+-]? digits [. digits]? ([eE] [+-]? digits)?`, with at least one
mantissa digit): returns the exact rational value, or `none` when the
string is not such a literal (Python raises `ValueError`). -/
def pyFloat (s : String) : Option ℚ :=
  let (neg, cs) := splitSign s.data
  let mant := cs.takeWhile (fun c => !(c == 'e' || c == 'E'))
  let expPart := cs.dropWhile (fun c => !(c == 'e' || c == 'E'))
  let ip := mant.takeWhile (fun c => !(c == '.'))
  let fpPart := mant.dropWhile (fun c => !(c == '.'))
  let fp := fpPart.drop 1
  let mantOk : Bool :=
    match fpPart with
    | [] => allDigits ip && !ip.isEmpty
    | _ :: _ => allDigits ip && allDigits fp && !(ip.isEmpty && fp.isEmpty)
  let expVal : Option Int :=
    match expPart with
    | [] => some 0
    | _ :: ep =>
      let (eneg, eds) := splitSign ep
      if allDigits eds && !eds.isEmpty then
        some (if eneg then -(digitsVal eds : Int) else (digitsVal eds : Int))
      else none
  match mantOk, expVal with
  | true, some e => some (decimalLiteralVal neg (ip ++ fp) fp.length e)
  | _, _ => none

/-- The `parse_segment` of `segment_reader.py`: split a `--keep` string on
commas; accept exactly 2 or 3 fields; both bounds must parse as numbers
and be `≥ 1e7` (the sub-threshold "time since start" form is rejected).
The printed diagnostics are I/O and are not modelled; each early
`return None` becomes `none`. -/
def parse_segment (segment_str : String) : Option Segment :=
  match pySplit segment_str ',' with
  | [start_str, end_str, name] =>
    match pyFloat start_str with
    | none => none
    | some start =>
      match pyFloat end_str with
      | none => none
      | some end_ =>
        if start < 10000000 ∨ end_ < 10000000 then none
        else some (Segment.init start end_ (some name))
  | [start_str, end_str] =>
    match pyFloat start_str with
    | none => none
    | some start =>
      match pyFloat end_str with
      | none => none
      | some end_ =>
        if start < 10000000 ∨ end_ < 10000000 then none
        else some (Segment.init start end_ none)
  | _ => none

/-- The `parse_segment_args`: parse each `--keep` argument, dropping the ones
that fail (`args.keep` is `None` when the flag was never given). -/
def parse_segment_args (keep_args : Option (List String)) : List Segment :=
  match keep_args with
  | none => []
  | some l => l.filterMap parse_segment


/-- Result of one pull on a `SegmentReader` (`__next__`): either
`StopIteration` or a yielded value.  The yielded value is an `Option`
because the Python loop can fall through to `return msg` while `msg` is
still `None` (after a file-reader switch, see `SegmentReader.__next__`
lines 43-57). -/
inductive PullResult where
  | stop
  | yielded (v : Option Msg)
deriving DecidableEq

/-- Result of asking the current file reader for messages until one
survives the `timestamp < start` skip: the reader ran out, or the segment
ended on an out-of-window message, or a message is yielded.  In the last
two cases the remaining messages of the file are returned. -/
inductive InFileStep where
  | fileExhausted
  | stopped (rest : List Msg)
  | yieldedMsg (m : Msg) (rest : List Msg)
deriving DecidableEq

/-- The rounds of the `while True` loop of `SegmentReader.__next__` that
stay inside the current file reader: `next(self._file_reader)` either
raises (`fileExhausted`) or produces `m`, which is skipped when
`m.ts < start`, ends the cursor when `m.ts > end`, and is yielded
otherwise. -/
def segNextInFile (seg : Segment) : List Msg → InFileStep
  | [] => .fileExhausted
  | m :: ms =>
    if m.ts < seg.start then segNextInFile seg ms
    else if seg.end_ < m.ts then .stopped ms
    else .yieldedMsg m ms

/-- One pull on a `SegmentReader` that holds a `FileReaderList` (the
`_file_readers is not None` mode).  State: the current file reader's
remaining messages and the chain's unopened files.  When the current
reader is exhausted the loop advances the chain (`StopIteration` from the
chain propagates, returning `stop` with the chain drained) and evaluates
the boundary round with `msg = None`, `timestamp = 0.0`: `0 < start`
continues into the new file, `0 > end` raises `StopIteration`, and
otherwise `return msg` yields the Python `None`.  The returned current
reader is `none` exactly when the chain itself was exhausted (its
`current()` is empty from then on). -/
def segNextChain (seg : Segment) : List Msg → List (List Msg) →
    PullResult × Option (List Msg) × List (List Msg)
  | cur, [] =>
    match segNextInFile seg cur with
    | .yieldedMsg m ms => (.yielded (some m), some ms, [])
    | .stopped ms => (.stop, some ms, [])
    | .fileExhausted => (.stop, none, [])
  | cur, f :: rest =>
    match segNextInFile seg cur with
    | .yieldedMsg m ms => (.yielded (some m), some ms, f :: rest)
    | .stopped ms => (.stop, some ms, f :: rest)
    | .fileExhausted =>
      if (0 : ℚ) < seg.start then segNextChain seg f rest
      else if seg.end_ < (0 : ℚ) then (.stop, some f, rest)
      else (.yielded none, some f, rest)

/-- One pull on a chain-backed `SegmentReader`, with the current reader as
an `Option` (`none` once the chain has signalled exhaustion, matching
`FileReaderList.current()`). -/
def segNext (seg : Segment) (cur : Option (List Msg)) (pending : List (List Msg)) :
    PullResult × Option (List Msg) × List (List Msg) :=
  segNextChain seg (cur.getD []) pending

/-- The not-yet-consumed record stream of a cursor state, in the order the
shared forward cursor would deliver it. -/
def streamOf (cur : Option (List Msg)) (pending : List (List Msg)) : List Msg :=
  cur.getD [] ++ pending.flatten

/-- Number of records plus number of unopened files: strictly decreases on
every yielding pull, so it bounds the number of pulls a full drain needs. -/
def chainMeasure (cur : Option (List Msg)) (pending : List (List Msg)) : Nat :=
  (streamOf cur pending).length + pending.length

/-- Drain a `SegmentReader` by pulling repeatedly (at most `fuel` times),
collecting the yielded values until `StopIteration`; returns the yields
and the final cursor state. -/
def segRunFuel (seg : Segment) : Nat → Option (List Msg) → List (List Msg) →
    List (Option Msg) × Option (List Msg) × List (List Msg)
  | 0, cur, pending => ([], cur, pending)
  | fuel + 1, cur, pending =>
    match segNext seg cur pending with
    | (.stop, cur', pending') => ([], cur', pending')
    | (.yielded v, cur', pending') =>
      let r := segRunFuel seg fuel cur' pending'
      (v :: r.1, r.2)

/-- Drain a `SegmentReader` completely (the measure bounds the number of
yields, so `chainMeasure + 1` pulls always reach the end signal). -/
def segRun (seg : Segment) (cur : Option (List Msg)) (pending : List (List Msg)) :
    List (Option Msg) × Option (List Msg) × List (List Msg) :=
  segRunFuel seg (chainMeasure cur pending + 1) cur pending

/-- Iterate the state component of `segNext` (the cursor state after `n`
further pulls). -/
def pullIter (seg : Segment) : Nat → Option (List Msg) × List (List Msg) →
    Option (List Msg) × List (List Msg)
  | 0, s => s
  | n + 1, s => pullIter seg n (segNext seg s.1 s.2).2

/-- The `os.path.split` (POSIX): split at the final slash; the head keeps no
trailing slashes unless it is entirely slashes. -/
def os_path_split (p : String) : String × String :=
  let cs := p.data
  let tail := ((cs.reverse).takeWhile (fun c => !(c == '/'))).reverse
  let head := cs.take (cs.length - tail.length)
  let head' :=
    if head.any (fun c => !(c == '/')) then (head.reverse.dropWhile (fun c => c == '/')).reverse
    else head
  (String.mk head', String.mk tail)

/-- The `os.path.dirname` (POSIX): the first component of `os.path.split`. -/
def os_path_dirname (p : String) : String := (os_path_split p).1

/-- The `os.path.join` (POSIX) for two components. -/
def os_path_join (a b : String) : String :=
  if b.data.head? = some '/' then b
  else if a.data = [] ∨ (a.data.reverse).head? = some '/' then a ++ b
  else a ++ "/" ++ b

/-- The `build_segment_name` of `segment_reader.py`: the directory part of the
first file's path joined with the segment name. -/
def build_segment_name (first_path : String) (segment_name : String) : String :=
  os_path_join (os_path_split first_path).1 segment_name

/-- A `SegmentReader` object: the name fixed by `__init__` via
`build_segment_name(file_reader.name, segment.name)`, the borrowed
segment, and the cursor state over the shared chain. -/
structure SegmentReaderObj where
  name : String
  segment : Segment
  cur : Option (List Msg)
  pending : List (List Msg)
deriving DecidableEq

/-- The `SegmentReader.__init__`: computes the reader's display name from the
first file's path before any record is pulled. -/
def SegmentReaderObj.init (segment : Segment) (frName : String) (frMsgs : List Msg)
    (pending : List (List Msg)) : SegmentReaderObj :=
  { name := build_segment_name frName segment.name
    segment := segment
    cur := some frMsgs
    pending := pending }

/-- The `SegmentReader.__next__` on the object: only the cursor state moves. -/
def SegmentReaderObj.next (r : SegmentReaderObj) : PullResult × SegmentReaderObj :=
  let s := segNext r.segment r.cur r.pending
  (s.1, { r with cur := s.2.1, pending := s.2.2 })

/-- Modelled from the spec: `FileReaderList` lives in `file_reader.py`,
which is not under `src/`.  Per §4.1 it owns the ordered pending files,
`advance`/`__next__` opens the next file's reader (raising `StopIteration`
when none remain), and `current()` returns the most recently produced
reader, or nothing before priming or once all files are consumed. -/
structure FileReaderList where
  cur : Option (List Msg)
  pending : List (List Msg)
deriving DecidableEq

/-- Modelled from the spec: a freshly constructed chain has produced no
reader yet. -/
def FileReaderList.init (files : List (List Msg)) : FileReaderList :=
  { cur := none, pending := files }

/-- Modelled from the spec: `FileReaderList.__next__` opens the next file,
making it current; `none` is `StopIteration`. -/
def FileReaderList.next : FileReaderList → Option (List Msg × FileReaderList)
  | ⟨_, []⟩ => none
  | ⟨_, f :: rest⟩ => some (f, ⟨some f, rest⟩)

/-- Modelled from the spec: `current()` peeks without advancing. -/
def FileReaderList.current (l : FileReaderList) : Option (List Msg) := l.cur

/-- Modelled from the spec: the chain's concatenated output — every record
of every remaining file, in file order (§4.4, §8 identity case). -/
def FileReaderList.fullStream (l : FileReaderList) : List Msg :=
  l.cur.getD [] ++ l.pending.flatten

/-- The `SegmentReaderList.__init__`: keeps the segment iterator, builds the
`FileReaderList` and primes the pump with one `next` call.  When there are
no files at all that `next` raises `StopIteration`, which `__init__` does
not intercept, so construction fails (`none`). -/
def SegmentReaderList.init (files : List (List Msg)) (segments : List Segment) :
    Option (List Segment × FileReaderList) :=
  match (FileReaderList.init files).next with
  | none => none
  | some (_, frl) => some (segments, frl)

/-- The `SegmentReaderList.__next__`: reads `current()` without advancing; if
it is empty the enumeration ends regardless of remaining segments;
otherwise the next segment is popped (its exhaustion also ends the
enumeration) and a `SegmentReader` is built from the segment, the current
reader and the shared chain. -/
def SegmentReaderList.next (s : List Segment × FileReaderList) :
    Option ((Segment × List Msg) × (List Segment × FileReaderList)) :=
  match s.2.current with
  | none => none
  | some fr =>
    match s.1 with
    | [] => none
    | seg :: rest => some ((seg, fr), (rest, s.2))

/-- The consumer loop over a `SegmentReaderList`: repeatedly ask for the
next `SegmentReader` and drain it, collecting each segment's yields.  The
cursor state is threaded, modelling the chain shared by reference between
the list and every reader it hands out. -/
def driveSegments : List Segment → Option (List Msg) → List (List Msg) →
    List (List (Option Msg)) × Option (List Msg) × List (List Msg)
  | [], cur, pending => ([], cur, pending)
  | _ :: _, none, pending => ([], none, pending)
  | seg :: rest, some fr, pending =>
    let r := segRun seg (some fr) pending
    let d := driveSegments rest r.2.1 r.2.2
    (r.1 :: d.1, d.2)

/-- The two shapes `choose_reader_list` can return. -/
inductive ReaderList where
  | segmentReaders (srl : Option (List Segment × FileReaderList))
  | fileReaders (frl : FileReaderList)
deriving DecidableEq

/-- The `choose_reader_list` of `segment_reader.py`: parse the `--keep`
arguments; with at least one parsed segment build a `SegmentReaderList`,
otherwise a plain `FileReaderList`. -/
def choose_reader_list (keep : Option (List String)) (files : List (List Msg)) : ReaderList :=
  let segments := parse_segment_args keep
  if 0 < segments.length then .segmentReaders (SegmentReaderList.init files segments)
  else .fileReaders (FileReaderList.init files)

/-- The `MAV_PARAM_TYPE_UINT8` of the MAVLink common dialect. -/
def MAV_PARAM_TYPE_UINT8 : Nat := 1

/-- The `MAV_PARAM_TYPE_INT64` of the MAVLink common dialect. -/
def MAV_PARAM_TYPE_INT64 : Nat := 8

/-- The `Param` of `tlog_param.py`: a parameter id, its value and its MAVLink
value type.  Values are modelled as exact rationals. -/
structure Param where
  id : String
  value : ℚ
  type : Nat
deriving DecidableEq

/-- The `Param.is_int`: the type lies in the integer range
`MAV_PARAM_TYPE_UINT8 <= type <= MAV_PARAM_TYPE_INT64`. -/
def Param.is_int (p : Param) : Bool :=
  MAV_PARAM_TYPE_UINT8 ≤ p.type && p.type ≤ MAV_PARAM_TYPE_INT64

/-- Python `int(x)` on a real value: truncation toward zero. -/
def pyInt (q : ℚ) : Int := Int.tdiv q.num q.den

/-- Python `try: return a finally: return b`: the `finally` block's
`return` always overrides the `try` block's pending return (and swallows
any exception), so the result is `b` unconditionally. -/
def pyTryFinallyReturn {α : Type} (_tryResult : Option α) (finResult : α) : α :=
  finResult

/-- The `Param.value_int`: for an integer-typed parameter, `int(self.value)`;
otherwise the error branch runs `try: return int(self.value)
finally: return 0`, whose `finally` overrides the `try` return. -/
def Param.value_int (p : Param) : Int :=
  if p.is_int then pyInt p.value
  else pyTryFinallyReturn (some (pyInt p.value)) 0

/-- The `s.startswith(p)` on character lists. -/
def charsStartWith : List Char → List Char → Bool
  | _, [] => true
  | [], _ :: _ => false
  | c :: cs, d :: ds => c == d && charsStartWith cs ds

/-- Python `str.startswith`. -/
def pyStartsWith (s p : String) : Bool := charsStartWith s.data p.data

/-- Python `str.endswith`. -/
def pyEndsWith (s p : String) : Bool := charsStartWith s.data.reverse p.data.reverse

/-- The `EK3_SRCn_POSXY` of `tlog_param.py`. -/
def EK3_SRCn_POSXY : List (Int × String) :=
  [(0, "None"), (3, "GPS"), (4, "Beacon"), (6, "ExternalNav")]

/-- The `EK3_SRCn_VELXY` of `tlog_param.py`. -/
def EK3_SRCn_VELXY : List (Int × String) :=
  [(0, "None"), (3, "GPS"), (4, "Beacon"), (5, "OpticalFlow"), (6, "ExternalNav"), (7, "WheelEncoder")]

/-- The `EK3_SRCn_POSZ` of `tlog_param.py`. -/
def EK3_SRCn_POSZ : List (Int × String) :=
  [(0, "None"), (1, "Baro"), (2, "RangeFinder"), (3, "GPS"), (4, "Beacon"), (6, "ExternalNav")]

/-- The `EK3_SRCn_VELZ` of `tlog_param.py`. -/
def EK3_SRCn_VELZ : List (Int × String) :=
  [(0, "None"), (3, "GPS"), (4, "Beacon"), (6, "ExternalNav")]

/-- The `EK3_SRCn_YAW` of `tlog_param.py`. -/
def EK3_SRCn_YAW : List (Int × String) :=
  [(0, "None"), (1, "Compass"), (2, "GPS"), (3, "GPS with Compass Fallback"), (6, "ExternalNav"), (8, "GSF")]

/-- Python `dict[key]` on the tables above: `.error ()` is a `KeyError`. -/
def dictGet (d : List (Int × String)) (k : Int) : Except Unit String :=
  match d.find? (fun e => e.1 == k) with
  | none => .error ()
  | some e => .ok e.2

/-- The `Param.comment`: the EK3 source-parameter classification table lookup
keyed by `value_int()`; `.ok none` is Python's `return None`. -/
def Param.comment (p : Param) : Except Unit (Option String) :=
  if pyStartsWith p.id "EK3_SRC" then
    if pyEndsWith p.id "POSXY" then (dictGet EK3_SRCn_POSXY p.value_int).map some
    else if pyEndsWith p.id "VELXY" then (dictGet EK3_SRCn_VELXY p.value_int).map some
    else if pyEndsWith p.id "POSZ" then (dictGet EK3_SRCn_POSZ p.value_int).map some
    else if pyEndsWith p.id "VELZ" then (dictGet EK3_SRCn_VELZ p.value_int).map some
    else if pyEndsWith p.id "YAW" then (dictGet EK3_SRCn_YAW p.value_int).map some
    else if p.id = "EK3_SRC_OPTIONS" then
      .ok (some (if p.value_int = 1 then "FuseAllVelocities" else "None"))
    else .ok none
  else .ok none


/-- If the in-file scan reports the file exhausted, every message of the
file was skipped because its timestamp precedes the segment start. -/
lemma segNextInFile_fileExhausted {seg : Segment} :
    ∀ {cur : List Msg}, segNextInFile seg cur = .fileExhausted →
      ∀ x ∈ cur, x.ts < seg.start := by
  intro cur
  induction cur with
  | nil => intro _ x hx; cases hx
  | cons m ms ih =>
    intro h x hx
    by_cases h1 : m.ts < seg.start
    · rcases List.mem_cons.mp hx with rfl | hx
      · exact h1
      · refine ih ?_ x hx
        simpa [segNextInFile, h1] using h
    · by_cases h2 : seg.end_ < m.ts <;> simp [segNextInFile, h1, h2] at h

/-- If the in-file scan stops, the file decomposes as skipped messages,
an out-of-window message, and the rest. -/
lemma segNextInFile_stopped {seg : Segment} :
    ∀ {cur ms : List Msg}, segNextInFile seg cur = .stopped ms →
      ∃ pre b, cur = pre ++ b :: ms ∧ (∀ x ∈ pre, x.ts < seg.start)
        ∧ ¬ b.ts < seg.start ∧ seg.end_ < b.ts := by
  intro cur
  induction cur with
  | nil => intro ms h; simp [segNextInFile] at h
  | cons m ms' ih =>
    intro ms h
    by_cases h1 : m.ts < seg.start
    · rcases ih (by simpa [segNextInFile, h1] using h) with ⟨pre, b, hsplit, hpre, hb1, hb2⟩
      exact ⟨m :: pre, b, by simp [hsplit], by
        intro x hx
        rcases List.mem_cons.mp hx with rfl | hx
        · exact h1
        · exact hpre x hx, hb1, hb2⟩
    · by_cases h2 : seg.end_ < m.ts
      · refine ⟨[], m, ?_, by simp, h1, h2⟩
        simp only [segNextInFile, if_neg h1, if_pos h2, InFileStep.stopped.injEq] at h
        simp [h]
      · simp [segNextInFile, h1, h2] at h

/-- If the in-file scan yields, the file decomposes as skipped messages,
the yielded in-window message, and the rest. -/
lemma segNextInFile_yielded {seg : Segment} :
    ∀ {cur ms : List Msg} {m : Msg}, segNextInFile seg cur = .yieldedMsg m ms →
      ∃ pre, cur = pre ++ m :: ms ∧ (∀ x ∈ pre, x.ts < seg.start)
        ∧ ¬ m.ts < seg.start ∧ ¬ seg.end_ < m.ts := by
  intro cur
  induction cur with
  | nil => intro ms m h; simp [segNextInFile] at h
  | cons c ms' ih =>
    intro ms m h
    by_cases h1 : c.ts < seg.start
    · rcases ih (by simpa [segNextInFile, h1] using h) with ⟨pre, hsplit, hpre, hm1, hm2⟩
      exact ⟨c :: pre, by simp [hsplit], by
        intro x hx
        rcases List.mem_cons.mp hx with rfl | hx
        · exact h1
        · exact hpre x hx, hm1, hm2⟩
    · by_cases h2 : seg.end_ < c.ts
      · simp [segNextInFile, h1, h2] at h
      · simp only [segNextInFile, if_neg h1, if_neg h2, InFileStep.yieldedMsg.injEq] at h
        exact ⟨[], by simp [h.1, h.2], by simp, h.1 ▸ h1, h.1 ▸ h2⟩

/-- A pull that yields a record: the consumed prefix consists of skipped
sub-`start` messages followed by the yielded in-window message, and the
unopened-file count never grows. -/
lemma segNextChain_yielded_some {seg : Segment} :
    ∀ (pending : List (List Msg)) (cur : List Msg) {m : Msg}
      {cur' : Option (List Msg)} {pending' : List (List Msg)},
      segNextChain seg cur pending = (.yielded (some m), cur', pending') →
      ∃ pre, cur ++ pending.flatten = pre ++ m :: (cur'.getD [] ++ pending'.flatten)
        ∧ (∀ x ∈ pre, x.ts < seg.start) ∧ ¬ m.ts < seg.start ∧ ¬ seg.end_ < m.ts
        ∧ pending'.length ≤ pending.length := by
  intro pending
  induction pending with
  | nil =>
    intro cur m cur' pending' h
    rw [segNextChain] at h
    cases h1 : segNextInFile seg cur with
    | fileExhausted => rw [h1] at h; simp at h
    | stopped ms => rw [h1] at h; simp at h
    | yieldedMsg m0 ms =>
      rw [h1] at h
      simp only [Prod.mk.injEq, PullResult.yielded.injEq, Option.some.injEq] at h
      obtain ⟨rfl, rfl, rfl⟩ := h
      rcases segNextInFile_yielded h1 with ⟨pre, hsplit, hpre, hm1, hm2⟩
      exact ⟨pre, by simp [hsplit], hpre, hm1, hm2, le_refl _⟩
  | cons f rest ih =>
    intro cur m cur' pending' h
    rw [segNextChain] at h
    cases h1 : segNextInFile seg cur with
    | yieldedMsg m0 ms =>
      rw [h1] at h
      simp only [Prod.mk.injEq, PullResult.yielded.injEq, Option.some.injEq] at h
      obtain ⟨rfl, rfl, rfl⟩ := h
      rcases segNextInFile_yielded h1 with ⟨pre, hsplit, hpre, hm1, hm2⟩
      exact ⟨pre, by simp [hsplit], hpre, hm1, hm2, le_refl _⟩
    | stopped ms => rw [h1] at h; simp at h
    | fileExhausted =>
      rw [h1] at h
      have hcur := segNextInFile_fileExhausted h1
      by_cases h2 : (0 : ℚ) < seg.start
      · have h' : segNextChain seg f rest = (.yielded (some m), cur', pending') := by
          simpa [h2] using h
        rcases ih f h' with ⟨pre, hsplit, hpre, hm1, hm2, hlen⟩
        refine ⟨cur ++ pre, ?_, ?_, hm1, hm2, Nat.le_succ_of_le hlen⟩
        · simp only [List.flatten_cons, ← List.append_assoc, List.append_cancel_right_eq]
          simpa [List.append_assoc] using hsplit
        · intro x hx
          rcases List.mem_append.mp hx with hx | hx
          · exact hcur x hx
          · exact hpre x hx
      · by_cases h3 : seg.end_ < (0 : ℚ) <;> simp [h2, h3] at h

/-- A pull that yields the Python `None` (a file-boundary round of a
segment whose window contains 0): no record is consumed beyond skipped
sub-`start` messages, and one pending file is opened. -/
lemma segNextChain_yielded_none {seg : Segment} :
    ∀ (pending : List (List Msg)) (cur : List Msg)
      {cur' : Option (List Msg)} {pending' : List (List Msg)},
      segNextChain seg cur pending = (.yielded none, cur', pending') →
      ∃ pre, cur ++ pending.flatten = pre ++ (cur'.getD [] ++ pending'.flatten)
        ∧ (∀ x ∈ pre, x.ts < seg.start) ∧ seg.start ≤ 0 ∧ (0 : ℚ) ≤ seg.end_
        ∧ pending'.length < pending.length := by
  intro pending
  induction pending with
  | nil =>
    intro cur cur' pending' h
    rw [segNextChain] at h
    cases h1 : segNextInFile seg cur <;> rw [h1] at h <;> simp at h
  | cons f rest ih =>
    intro cur cur' pending' h
    rw [segNextChain] at h
    cases h1 : segNextInFile seg cur with
    | yieldedMsg m0 ms => rw [h1] at h; simp at h
    | stopped ms => rw [h1] at h; simp at h
    | fileExhausted =>
      rw [h1] at h
      have hcur := segNextInFile_fileExhausted h1
      by_cases h2 : (0 : ℚ) < seg.start
      · have h' : segNextChain seg f rest = (.yielded none, cur', pending') := by
          simpa [h2] using h
        rcases ih f h' with ⟨pre, hsplit, hpre, hs, he, hlen⟩
        refine ⟨cur ++ pre, ?_, ?_, hs, he, Nat.lt_succ_of_lt hlen⟩
        · simp only [List.flatten_cons, ← List.append_assoc, List.append_cancel_right_eq]
          simpa [List.append_assoc] using hsplit
        · intro x hx
          rcases List.mem_append.mp hx with hx | hx
          · exact hcur x hx
          · exact hpre x hx
      · by_cases h3 : seg.end_ < (0 : ℚ)
        · simp [h2, h3] at h
        · simp only [if_neg h2, if_neg h3, Prod.mk.injEq] at h
          obtain ⟨-, rfl, rfl⟩ := h
          exact ⟨cur, by simp, hcur, le_of_not_lt h2, le_of_not_lt h3,
            Nat.lt_succ_self _⟩

/-- A pull that signals `StopIteration`.  Three flavours: the chain itself
ran dry (everything left was skipped and the resulting state is empty); an
out-of-window record was consumed and discarded; or a file-boundary round
whose fake timestamp `0.0` already lies past `end` (only reachable when
`start <= 0` fails to `continue` first, i.e. `start <= 0` and `end < 0`). -/
lemma segNextChain_stop {seg : Segment} :
    ∀ (pending : List (List Msg)) (cur : List Msg)
      {cur' : Option (List Msg)} {pending' : List (List Msg)},
      segNextChain seg cur pending = (.stop, cur', pending') →
      ∃ pre, (∀ x ∈ pre, x.ts < seg.start) ∧ pending'.length ≤ pending.length ∧
        ((cur ++ pending.flatten = pre ∧ cur' = none ∧ pending' = [])
        ∨ (∃ b, cur ++ pending.flatten = pre ++ b :: (cur'.getD [] ++ pending'.flatten)
            ∧ ¬ b.ts < seg.start ∧ seg.end_ < b.ts)
        ∨ (seg.start ≤ 0 ∧ seg.end_ < 0
            ∧ cur ++ pending.flatten = pre ++ (cur'.getD [] ++ pending'.flatten))) := by
  intro pending
  induction pending with
  | nil =>
    intro cur cur' pending' h
    rw [segNextChain] at h
    cases h1 : segNextInFile seg cur with
    | yieldedMsg m0 ms => rw [h1] at h; simp at h
    | stopped ms =>
      rw [h1] at h
      simp only [Prod.mk.injEq] at h
      obtain ⟨-, rfl, rfl⟩ := h
      rcases segNextInFile_stopped h1 with ⟨pre, b, hsplit, hpre, hb1, hb2⟩
      exact ⟨pre, hpre, le_refl _, Or.inr (Or.inl ⟨b, by simp [hsplit], hb1, hb2⟩)⟩
    | fileExhausted =>
      rw [h1] at h
      simp only [Prod.mk.injEq] at h
      obtain ⟨-, rfl, rfl⟩ := h
      exact ⟨cur, segNextInFile_fileExhausted h1, le_refl _,
        Or.inl ⟨by simp, rfl, rfl⟩⟩
  | cons f rest ih =>
    intro cur cur' pending' h
    rw [segNextChain] at h
    cases h1 : segNextInFile seg cur with
    | yieldedMsg m0 ms => rw [h1] at h; simp at h
    | stopped ms =>
      rw [h1] at h
      simp only [Prod.mk.injEq] at h
      obtain ⟨-, rfl, rfl⟩ := h
      rcases segNextInFile_stopped h1 with ⟨pre, b, hsplit, hpre, hb1, hb2⟩
      exact ⟨pre, hpre, le_refl _, Or.inr (Or.inl ⟨b, by simp [hsplit], hb1, hb2⟩)⟩
    | fileExhausted =>
      rw [h1] at h
      have hcur := segNextInFile_fileExhausted h1
      by_cases h2 : (0 : ℚ) < seg.start
      · have h' : segNextChain seg f rest = (.stop, cur', pending') := by
          simpa [h2] using h
        rcases ih f h' with ⟨pre, hpre, hlen, hcase⟩
        refine ⟨cur ++ pre, ?_, Nat.le_succ_of_le hlen, ?_⟩
        · intro x hx
          rcases List.mem_append.mp hx with hx | hx
          · exact hcur x hx
          · exact hpre x hx
        · rcases hcase with ⟨hsplit, hc, hp⟩ | ⟨b, hsplit, hb1, hb2⟩ | ⟨hs, he, hsplit⟩
          · exact Or.inl ⟨by simp [List.append_assoc, hsplit], hc, hp⟩
          · exact Or.inr (Or.inl ⟨b, by simp [List.append_assoc, hsplit], hb1, hb2⟩)
          · exact Or.inr (Or.inr ⟨hs, he, by simp [List.append_assoc, hsplit]⟩)
      · by_cases h3 : seg.end_ < (0 : ℚ)
        · simp only [if_neg h2, if_pos h3, Prod.mk.injEq] at h
          obtain ⟨-, rfl, rfl⟩ := h
          exact ⟨cur, hcur, Nat.le_succ _,
            Or.inr (Or.inr ⟨le_of_not_lt h2, h3, by simp⟩)⟩
        · simp [h2, h3] at h

/-- The `segNextChain_yielded_some` phrased over `segNext` and `streamOf`. -/
lemma segNext_yielded_some {seg : Segment} {cur : Option (List Msg)}
    {pending : List (List Msg)} {m : Msg} {cur' : Option (List Msg)}
    {pending' : List (List Msg)}
    (h : segNext seg cur pending = (.yielded (some m), cur', pending')) :
    ∃ pre, streamOf cur pending = pre ++ m :: streamOf cur' pending'
      ∧ (∀ x ∈ pre, x.ts < seg.start) ∧ ¬ m.ts < seg.start ∧ ¬ seg.end_ < m.ts
      ∧ pending'.length ≤ pending.length :=
  segNextChain_yielded_some pending (cur.getD []) h

/-- The `segNextChain_yielded_none` phrased over `segNext` and `streamOf`. -/
lemma segNext_yielded_none {seg : Segment} {cur : Option (List Msg)}
    {pending : List (List Msg)} {cur' : Option (List Msg)}
    {pending' : List (List Msg)}
    (h : segNext seg cur pending = (.yielded none, cur', pending')) :
    ∃ pre, streamOf cur pending = pre ++ streamOf cur' pending'
      ∧ (∀ x ∈ pre, x.ts < seg.start) ∧ seg.start ≤ 0 ∧ (0 : ℚ) ≤ seg.end_
      ∧ pending'.length < pending.length :=
  segNextChain_yielded_none pending (cur.getD []) h

/-- The `segNextChain_stop` phrased over `segNext` and `streamOf`. -/
lemma segNext_stop {seg : Segment} {cur : Option (List Msg)}
    {pending : List (List Msg)} {cur' : Option (List Msg)}
    {pending' : List (List Msg)}
    (h : segNext seg cur pending = (.stop, cur', pending')) :
    ∃ pre, (∀ x ∈ pre, x.ts < seg.start) ∧ pending'.length ≤ pending.length ∧
      ((streamOf cur pending = pre ∧ cur' = none ∧ pending' = [])
      ∨ (∃ b, streamOf cur pending = pre ++ b :: streamOf cur' pending'
          ∧ ¬ b.ts < seg.start ∧ seg.end_ < b.ts)
      ∨ (seg.start ≤ 0 ∧ seg.end_ < 0
          ∧ streamOf cur pending = pre ++ streamOf cur' pending')) :=
  segNextChain_stop pending (cur.getD []) h

/-- Whatever one pull does, the remaining stream is a sublist (in fact a
suffix) of the previous stream: the shared cursor only moves forward. -/
lemma segNext_stream_sublist (seg : Segment) (cur : Option (List Msg))
    (pending : List (List Msg)) :
    List.Sublist (streamOf (segNext seg cur pending).2.1 (segNext seg cur pending).2.2)
      (streamOf cur pending) := by
  rcases hr : segNext seg cur pending with ⟨res, cur', pending'⟩
  show List.Sublist (streamOf cur' pending') (streamOf cur pending)
  cases res with
  | stop =>
    rcases segNext_stop hr with ⟨pre, -, -, hcase⟩
    rcases hcase with ⟨hsplit, rfl, rfl⟩ | ⟨b, hsplit, -, -⟩ | ⟨-, -, hsplit⟩
    · simp only [streamOf, Option.getD_none, List.flatten_nil, List.append_nil]
      exact List.nil_sublist _
    · rw [hsplit]
      exact ((List.Sublist.refl _).cons b).trans (List.sublist_append_right pre _)
    · rw [hsplit]
      exact List.sublist_append_right pre _
  | yielded v =>
    cases v with
    | some m =>
      rcases segNext_yielded_some hr with ⟨pre, hsplit, -, -, -, -⟩
      rw [hsplit]
      exact ((List.Sublist.refl _).cons m).trans (List.sublist_append_right pre _)
    | none =>
      rcases segNext_yielded_none hr with ⟨pre, hsplit, -, -, -, -⟩
      rw [hsplit]
      exact List.sublist_append_right pre _

/-- Every yielding pull strictly decreases records-remaining plus
unopened-files: a `SegmentReader` cannot yield forever. -/
lemma segNext_measure_yield {seg : Segment} {cur : Option (List Msg)}
    {pending : List (List Msg)} {v : Option Msg} {cur' : Option (List Msg)}
    {pending' : List (List Msg)}
    (h : segNext seg cur pending = (.yielded v, cur', pending')) :
    chainMeasure cur' pending' < chainMeasure cur pending := by
  cases v with
  | some m =>
    rcases segNext_yielded_some h with ⟨pre, hsplit, -, -, -, hlen⟩
    have hl := congrArg List.length hsplit
    simp only [List.length_append, List.length_cons] at hl
    simp only [chainMeasure]
    omega
  | none =>
    rcases segNext_yielded_none h with ⟨pre, hsplit, -, -, -, hlen⟩
    have hl := congrArg List.length hsplit
    simp only [List.length_append] at hl
    simp only [chainMeasure]
    omega

/-- The records a (possibly truncated) drain yields, followed by the
remaining stream, form a sublist of the original stream: every record is
delivered at most once and in stream order. -/
lemma segRunFuel_consumed_sublist (seg : Segment) :
    ∀ (fuel : Nat) (cur : Option (List Msg)) (pending : List (List Msg)),
      List.Sublist
        (((segRunFuel seg fuel cur pending).1.filterMap id)
          ++ streamOf (segRunFuel seg fuel cur pending).2.1
              (segRunFuel seg fuel cur pending).2.2)
        (streamOf cur pending) := by
  intro fuel
  induction fuel with
  | zero =>
    intro cur pending
    simp only [segRunFuel, List.filterMap_nil, List.nil_append]
    exact List.Sublist.refl (streamOf cur pending)
  | succ n ih =>
    intro cur pending
    rcases hr : segNext seg cur pending with ⟨res, cur', pending'⟩
    cases res with
    | stop =>
      rw [segRunFuel, hr]
      simp only [List.filterMap_nil, List.nil_append]
      have hsub := segNext_stream_sublist seg cur pending
      rw [hr] at hsub
      exact hsub
    | yielded v =>
      rw [segRunFuel, hr]
      cases v with
      | some m =>
        rcases segNext_yielded_some hr with ⟨pre, hsplit, -, -, -, -⟩
        rw [hsplit]
        simp only [List.filterMap_cons, id_eq, List.cons_append]
        exact ((ih cur' pending').cons₂ m).trans (List.sublist_append_right pre _)
      | none =>
        rcases segNext_yielded_none hr with ⟨pre, hsplit, -, -, -, -⟩
        rw [hsplit]
        simp only [List.filterMap_cons, id_eq]
        exact (ih cur' pending').trans (List.sublist_append_right pre _)

/-- The closed-interval window test `start <= t <= end`. -/
def inWindow (seg : Segment) (m : Msg) : Bool :=
  decide (seg.start ≤ m.ts) && decide (m.ts ≤ seg.end_)

/-- Skipped messages (`t < start`) never pass the window test. -/
lemma filter_inWindow_skipped {seg : Segment} {pre : List Msg}
    (hpre : ∀ x ∈ pre, x.ts < seg.start) :
    pre.filter (inWindow seg) = [] := by
  rw [List.filter_eq_nil_iff]
  intro a ha
  simp only [inWindow, Bool.and_eq_true, decide_eq_true_eq, not_and]
  intro hs
  exact absurd (hpre a ha) (not_lt.mpr hs)

/-- Messages past the window end never pass the window test. -/
lemma filter_inWindow_past {seg : Segment} {l : List Msg}
    (h : ∀ x ∈ l, seg.end_ < x.ts) :
    l.filter (inWindow seg) = [] := by
  rw [List.filter_eq_nil_iff]
  intro a ha
  simp only [inWindow, Bool.and_eq_true, decide_eq_true_eq, not_and, not_le]
  intro _
  exact h a ha

/-- Over a nondecreasing stream, and for a window whose end is
nonnegative, a fully fuelled drain yields exactly the in-window records of
the stream, in stream order. -/
lemma segRunFuel_filter (seg : Segment) (hend : (0 : ℚ) ≤ seg.end_) :
    ∀ (fuel : Nat) (cur : Option (List Msg)) (pending : List (List Msg)),
      tsSorted (streamOf cur pending) → chainMeasure cur pending ≤ fuel →
      (segRunFuel seg fuel cur pending).1.filterMap id
        = (streamOf cur pending).filter (inWindow seg) := by
  intro fuel
  induction fuel with
  | zero =>
    intro cur pending _ hm
    have h0 : (streamOf cur pending).length = 0 := by
      simp only [chainMeasure] at hm
      omega
    rw [List.length_eq_zero] at h0
    simp [segRunFuel, h0]
  | succ n ih =>
    intro cur pending hsort hm
    rcases hr : segNext seg cur pending with ⟨res, cur', pending'⟩
    cases res with
    | stop =>
      rw [segRunFuel, hr]
      simp only [List.filterMap_nil]
      rcases segNext_stop hr with ⟨pre, hpre, -, hcase⟩
      rcases hcase with ⟨hsplit, -, -⟩ | ⟨b, hsplit, hb1, hb2⟩ | ⟨-, he, -⟩
      · rw [hsplit, filter_inWindow_skipped hpre]
      · rw [hsplit] at hsort ⊢
        symm
        rw [List.filter_append, filter_inWindow_skipped hpre, List.nil_append]
        apply filter_inWindow_past
        intro x hx
        rcases List.mem_cons.mp hx with rfl | hx
        · exact hb2
        · have hpair := (List.pairwise_append.mp hsort).2.1
          exact lt_of_lt_of_le hb2 ((List.pairwise_cons.mp hpair).1 x hx)
      · exact absurd hend (not_le.mpr he)
    | yielded v =>
      have hsub := segNext_stream_sublist seg cur pending
      rw [hr] at hsub
      have hsort' : tsSorted (streamOf cur' pending') := hsort.sublist hsub
      have hm' : chainMeasure cur' pending' ≤ n := by
        have := segNext_measure_yield hr
        omega
      rw [segRunFuel, hr]
      cases v with
      | some m =>
        rcases segNext_yielded_some hr with ⟨pre, hsplit, hpre, hm1, hm2, -⟩
        have hiw : inWindow seg m = true := by
          simp only [inWindow, Bool.and_eq_true, decide_eq_true_eq]
          exact ⟨le_of_not_lt hm1, le_of_not_lt hm2⟩
        show (some m :: (segRunFuel seg n cur' pending').1).filterMap id = _
        rw [hsplit, List.filter_append, filter_inWindow_skipped hpre, List.nil_append]
        simp only [List.filterMap_cons, id_eq, List.filter_cons, hiw, if_true]
        rw [ih cur' pending' hsort' hm']
      | none =>
        rcases segNext_yielded_none hr with ⟨pre, hsplit, hpre, -, -, -⟩
        show ((none : Option Msg) :: (segRunFuel seg n cur' pending').1).filterMap id = _
        rw [hsplit, List.filter_append, filter_inWindow_skipped hpre, List.nil_append]
        simp only [List.filterMap_cons, id_eq]
        exact ih cur' pending' hsort' hm'

/-- After a `StopIteration` from a cursor with positive `start` over a
nondecreasing stream, every record still in the stream lies past the
window end. -/
lemma segNext_stop_invariant {seg : Segment} (hstart : (0 : ℚ) < seg.start)
    {cur : Option (List Msg)} {pending : List (List Msg)}
    {cur' : Option (List Msg)} {pending' : List (List Msg)}
    (h : segNext seg cur pending = (.stop, cur', pending'))
    (hsort : tsSorted (streamOf cur pending)) :
    ∀ x ∈ streamOf cur' pending', seg.end_ < x.ts := by
  rcases segNext_stop h with ⟨pre, -, -, hcase⟩
  rcases hcase with ⟨-, rfl, rfl⟩ | ⟨b, hsplit, -, hb2⟩ | ⟨hs, -, -⟩
  · intro x hx
    simp [streamOf] at hx
  · intro x hx
    rw [hsplit] at hsort
    have hpair := (List.pairwise_append.mp hsort).2.1
    exact lt_of_lt_of_le hb2 ((List.pairwise_cons.mp hpair).1 x hx)
  · exact absurd hs (not_le.mpr hstart)

/-- From a state whose whole stream lies past the window end, a cursor
with positive `start` pulls only `StopIteration`, and the property is
preserved. -/
lemma segNext_all_past_stop {seg : Segment} (hstart : (0 : ℚ) < seg.start)
    {cur : Option (List Msg)} {pending : List (List Msg)}
    (hall : ∀ x ∈ streamOf cur pending, seg.end_ < x.ts) :
    (segNext seg cur pending).1 = .stop
      ∧ ∀ x ∈ streamOf (segNext seg cur pending).2.1 (segNext seg cur pending).2.2,
          seg.end_ < x.ts := by
  rcases hr : segNext seg cur pending with ⟨res, cur', pending'⟩
  have hsub := segNext_stream_sublist seg cur pending
  rw [hr] at hsub
  cases res with
  | stop => exact ⟨rfl, fun x hx => hall x (hsub.subset hx)⟩
  | yielded v =>
    exfalso
    cases v with
    | some m =>
      rcases segNext_yielded_some hr with ⟨pre, hsplit, -, -, hm2, -⟩
      have hm : m ∈ streamOf cur pending := by
        rw [hsplit]
        simp
      exact hm2 (hall m hm)
    | none =>
      rcases segNext_yielded_none hr with ⟨-, -, -, hs, -, -⟩
      exact absurd hs (not_le.mpr hstart)

/-- Iterating pulls preserves "everything stops": once the stream is past
the window end, every later pull of a positive-`start` cursor stops. -/
lemma pullIter_stop {seg : Segment} (hstart : (0 : ℚ) < seg.start) :
    ∀ (n : Nat) (s : Option (List Msg) × List (List Msg)),
      (∀ x ∈ streamOf s.1 s.2, seg.end_ < x.ts) →
      (segNext seg (pullIter seg n s).1 (pullIter seg n s).2).1 = .stop := by
  intro n
  induction n with
  | zero => exact fun s hall => (segNext_all_past_stop hstart hall).1
  | succ k ih =>
    intro s hall
    rw [pullIter]
    exact ih _ (segNext_all_past_stop hstart hall).2

/-- Concatenated over all segments served from the shared cursor, the
records yielded form a sublist of the input stream: in order, each
occurrence delivered at most once. -/
lemma driveSegments_sublist :
    ∀ (segs : List Segment) (cur : Option (List Msg)) (pending : List (List Msg)),
      List.Sublist
        (((driveSegments segs cur pending).1.map (fun l => l.filterMap id)).flatten)
        (streamOf cur pending) := by
  intro segs
  induction segs with
  | nil =>
    intro cur pending
    simp [driveSegments]
  | cons seg rest ih =>
    intro cur pending
    cases cur with
    | none => simp [driveSegments]
    | some fr =>
      rw [driveSegments]
      show List.Sublist
        ((segRun seg (some fr) pending).1.filterMap id
          ++ ((driveSegments rest (segRun seg (some fr) pending).2.1
              (segRun seg (some fr) pending).2.2).1.map (fun l => l.filterMap id)).flatten)
        (streamOf (some fr) pending)
      have h1 := segRunFuel_consumed_sublist seg (chainMeasure (some fr) pending + 1)
        (some fr) pending
      have h2 := ih (segRun seg (some fr) pending).2.1 (segRun seg (some fr) pending).2.2
      exact (h2.append_left _).trans h1

/-- The `Nat.digitChar` of a value below 10 is a decimal digit character. -/
lemma digitChar_isDigit : ∀ d, d < 10 → (Nat.digitChar d).isDigit = true := by decide

/-- Every character the digit recursion emits is a digit (or came from the
accumulator). -/
lemma mem_natDecimalDigitsAux :
    ∀ (fuel n : Nat) (acc : List Char) (c : Char),
      c ∈ natDecimalDigitsAux fuel n acc → c ∈ acc ∨ c.isDigit = true := by
  intro fuel
  induction fuel with
  | zero =>
    intro n acc c h
    rw [natDecimalDigitsAux] at h
    exact Or.inl h
  | succ k ih =>
    intro n acc c h
    rw [natDecimalDigitsAux] at h
    by_cases h0 : n = 0
    · rw [if_pos h0] at h
      exact Or.inl h
    · rw [if_neg h0] at h
      rcases ih _ _ _ h with hacc | hd
      · rcases List.mem_cons.mp hacc with rfl | hacc
        · exact Or.inr (digitChar_isDigit _ (Nat.mod_lt _ (by norm_num)))
        · exact Or.inl hacc
      · exact Or.inr hd

/-- The decimal string of a natural number contains only digits. -/
lemma natDecimalChars_digits (n : Nat) : ∀ c ∈ natDecimalChars n, c.isDigit = true := by
  intro c hc
  rw [natDecimalChars] at hc
  by_cases h0 : n = 0
  · rw [if_pos h0] at hc
    rcases List.mem_singleton.mp hc with rfl
    decide
  · rw [if_neg h0] at hc
    rcases mem_natDecimalDigitsAux n n [] c hc with h | h
    · cases h
    · exact h

/-- The decimal string of an integer contains only digits and `-`. -/
lemma intDecimalChars_chars (i : Int) :
    ∀ c ∈ intDecimalChars i, c.isDigit = true ∨ c = '-' := by
  intro c hc
  rw [intDecimalChars] at hc
  by_cases h0 : i < 0
  · rw [if_pos h0] at hc
    rcases List.mem_cons.mp hc with rfl | hc
    · exact Or.inr rfl
    · exact Or.inl (natDecimalChars_digits _ c hc)
  · rw [if_neg h0] at hc
    exact Or.inl (natDecimalChars_digits _ c hc)

/-- The default segment name contains no path separator. -/
lemma segment_default_name_no_separator (s e : ℚ) :
    '/' ∉ (Segment.init s e none).name.data := by
  intro hmem
  have hdata : (Segment.init s e none).name.data
      = (formatDotZeroF s).data ++ '_' :: (formatDotZeroF e).data := rfl
  rw [hdata] at hmem
  rcases List.mem_append.mp hmem with h | h
  · rcases intDecimalChars_chars (roundHalfEven s) '/' h with h | h <;> simp at h
  · rcases List.mem_cons.mp h with h | h
    · simp at h
    · rcases intDecimalChars_chars (roundHalfEven e) '/' h with h | h <;> simp at h

/-- Claim C1, counterexample to the claim as stated: for the segment
`[-2, -1]` over the monotone two-file stream `[-2]`, `[-1]`, the record
with timestamp `-1` satisfies `start ≤ t ≤ end` but is never yielded —
the file-boundary round evaluates `timestamp = 0.0 > end` and raises
`StopIteration` before file B is read. -/
theorem segmentReader_closed_interval_cex :
    tsSorted (streamOf (some [⟨1, -2⟩]) [[⟨2, -1⟩]])
    ∧ (Segment.mk (-2) (-1) "w").start ≤ (⟨2, -1⟩ : Msg).ts
    ∧ (⟨2, -1⟩ : Msg).ts ≤ (Segment.mk (-2) (-1) "w").end_
    ∧ (⟨2, -1⟩ : Msg) ∈ streamOf (some [⟨1, -2⟩]) [[⟨2, -1⟩]]
    ∧ (⟨2, -1⟩ : Msg)
        ∉ (segRun (Segment.mk (-2) (-1) "w") (some [⟨1, -2⟩]) [[⟨2, -1⟩]]).1.filterMap id := by
  decide

/-- Claim C1 (amended: additionally require `0 ≤ end`, true of every
segment `parse_segment` accepts since its bounds are `≥ 1e7`): over a
monotonically-timestamped stream, a full drain of `SegmentReader.__next__`
skips every record with `t < start`, stops at the first record with
`t > end`, and the records it yields are exactly those with
`start ≤ t ≤ end`, in stream order — both endpoints included. -/
theorem segmentReader_window_filter (seg : Segment) (cur : Option (List Msg))
    (pending : List (List Msg)) (hend : (0 : ℚ) ≤ seg.end_)
    (hsort : tsSorted (streamOf cur pending)) :
    (segRun seg cur pending).1.filterMap id
      = (streamOf cur pending).filter (inWindow seg) :=
  segRunFuel_filter seg hend _ cur pending hsort (Nat.le_succ _)

/-- Claim C1 witness: the spec's example — file A at timestamps `[5, 15]`,
file B at `[20, 30]`, segment `[10, 25]` — yields `[15, 20]` in order. -/
theorem segmentReader_window_filter_witness :
    (0 : ℚ) ≤ (Segment.mk 10 25 "s").end_
    ∧ tsSorted (streamOf (some [⟨0, 5⟩, ⟨1, 15⟩]) [[⟨2, 20⟩, ⟨3, 30⟩]])
    ∧ (segRun (Segment.mk 10 25 "s") (some [⟨0, 5⟩, ⟨1, 15⟩])
        [[⟨2, 20⟩, ⟨3, 30⟩]]).1.filterMap id = [⟨1, 15⟩, ⟨2, 20⟩] :=
  ⟨by decide, by decide,
    (segmentReader_window_filter (Segment.mk 10 25 "s") (some [⟨0, 5⟩, ⟨1, 15⟩])
      [[⟨2, 20⟩, ⟨3, 30⟩]] (by decide) (by decide)).trans (by decide)⟩

/-- Claim C2: segments served in order from one shared forward cursor yield,
concatenated, a sublist of the input stream (each record occurrence is
delivered at most once, in order); when the stream has no duplicate
records, the segments' outputs are pairwise disjoint.  The record whose
timestamp first exceeds a segment's end is consumed by that segment's
final pull and appears in no output. -/
theorem sharedCursor_no_double_yield (segs : List Segment) (cur : Option (List Msg))
    (pending : List (List Msg)) :
    List.Sublist
      (((driveSegments segs cur pending).1.map (fun l => l.filterMap id)).flatten)
      (streamOf cur pending)
    ∧ ((streamOf cur pending).Nodup →
        ((driveSegments segs cur pending).1.map (fun l => l.filterMap id)).Pairwise
          List.Disjoint) :=
  ⟨driveSegments_sublist segs cur pending, fun hnd =>
    (List.nodup_flatten.mp (hnd.sublist (driveSegments_sublist segs cur pending))).2⟩

/-- Claim C2 witness: segments `[10, 20]` and `[25, 30]` over the stream
`12, 22, | 26`: the outputs `[12]` and `[26]` are disjoint, and the record
at `22` (consumed to detect the end of the first segment) is in neither. -/
theorem sharedCursor_no_double_yield_witness :
    (streamOf (some [⟨1, 12⟩, ⟨2, 22⟩]) [[⟨3, 26⟩]]).Nodup
    ∧ ((driveSegments [⟨10, 20, "a"⟩, ⟨25, 30, "b"⟩] (some [⟨1, 12⟩, ⟨2, 22⟩])
        [[⟨3, 26⟩]]).1.map (fun l => l.filterMap id)).Pairwise List.Disjoint
    ∧ (⟨2, 22⟩ : Msg) ∉ ((driveSegments [⟨10, 20, "a"⟩, ⟨25, 30, "b"⟩]
        (some [⟨1, 12⟩, ⟨2, 22⟩]) [[⟨3, 26⟩]]).1.map (fun l => l.filterMap id)).flatten :=
  ⟨by decide,
    (sharedCursor_no_double_yield [⟨10, 20, "a"⟩, ⟨25, 30, "b"⟩]
      (some [⟨1, 12⟩, ⟨2, 22⟩]) [[⟨3, 26⟩]]).2 (by decide),
    by decide⟩

/-- Claim C6, counterexample to the claim as stated: the segment `[0, 0]`
over the monotone stream `1, | 2`.  The first pull consumes the record at
`1` (`1 > end`) and raises `StopIteration`; the second pull hits the file
boundary, evaluates `msg = None` with timestamp `0.0 ∈ [0, 0]`, and
returns the value `None` instead of the end signal. -/
theorem segmentReader_exhausted_repull_cex :
    tsSorted (streamOf (some [⟨1, 1⟩]) [[⟨2, 2⟩]])
    ∧ (segNext ⟨0, 0, "z"⟩ (some [⟨1, 1⟩]) [[⟨2, 2⟩]]).1 = .stop
    ∧ (segNext ⟨0, 0, "z"⟩
        (segNext ⟨0, 0, "z"⟩ (some [⟨1, 1⟩]) [[⟨2, 2⟩]]).2.1
        (segNext ⟨0, 0, "z"⟩ (some [⟨1, 1⟩]) [[⟨2, 2⟩]]).2.2).1 = .yielded none := by
  decide

/-- Claim C6 (amended: additionally require `start > 0`, true of every
segment `parse_segment` accepts): once a positive-`start` cursor over a
nondecreasing stream signals `StopIteration`, every subsequent pull
signals `StopIteration` again — never another yielded value and never an
exception other than `StopIteration`. -/
theorem segmentReader_exhausted_repull_stop (seg : Segment) (cur : Option (List Msg))
    (pending : List (List Msg)) (n : Nat) (hstart : (0 : ℚ) < seg.start)
    (hsort : tsSorted (streamOf cur pending))
    (hstop : (segNext seg cur pending).1 = .stop) :
    (segNext seg (pullIter seg n (segNext seg cur pending).2).1
        (pullIter seg n (segNext seg cur pending).2).2).1 = .stop := by
  rcases hr : segNext seg cur pending with ⟨res, cur', pending'⟩
  replace hstop : res = .stop := by rw [hr] at hstop; exact hstop
  subst hstop
  show (segNext seg (pullIter seg n (cur', pending')).1
      (pullIter seg n (cur', pending')).2).1 = .stop
  exact pullIter_stop hstart n (cur', pending') (segNext_stop_invariant hstart hr hsort)

/-- Claim C6 witness: segment `[1, 2]`, stream `3, | 4`: the first pull
stops (`3 > 2`), and the pull after three further pulls still stops. -/
theorem segmentReader_exhausted_repull_stop_witness :
    (0 : ℚ) < (⟨1, 2, "c"⟩ : Segment).start
    ∧ tsSorted (streamOf (some [⟨0, 3⟩]) [[⟨1, 4⟩]])
    ∧ (segNext ⟨1, 2, "c"⟩ (some [⟨0, 3⟩]) [[⟨1, 4⟩]]).1 = .stop
    ∧ (segNext ⟨1, 2, "c"⟩
        (pullIter ⟨1, 2, "c"⟩ 3 (segNext ⟨1, 2, "c"⟩ (some [⟨0, 3⟩]) [[⟨1, 4⟩]]).2).1
        (pullIter ⟨1, 2, "c"⟩ 3 (segNext ⟨1, 2, "c"⟩ (some [⟨0, 3⟩]) [[⟨1, 4⟩]]).2).2).1
      = .stop :=
  ⟨by decide, by decide, by decide,
    segmentReader_exhausted_repull_stop ⟨1, 2, "c"⟩ (some [⟨0, 3⟩]) [[⟨1, 4⟩]] 3
      (by decide) (by decide) (by decide)⟩

/-- Claim C9: at a file boundary `SegmentReader.__next__` does not pull from
the new reader within the same round; it evaluates the round with
`msg = None`, `timestamp = 0.0`.  Hence for `start > 0` the boundary round
is always skipped and no pull ever yields the value `None`; but for a
segment with `start ≤ 0 ≤ end`, the pull at a file boundary returns the
value `None`, leaving the new file untouched. -/
theorem segmentReader_boundary_none_spec (seg : Segment) (cur : Option (List Msg))
    (pending : List (List Msg)) (f : List Msg) (rest : List (List Msg)) :
    ((0 : ℚ) < seg.start → (segNext seg cur pending).1 ≠ .yielded none)
    ∧ (seg.start ≤ 0 → (0 : ℚ) ≤ seg.end_ →
        segNext seg (some []) (f :: rest) = (.yielded none, some f, rest)) := by
  constructor
  · intro hstart h
    rcases hr : segNext seg cur pending with ⟨res, cur', pending'⟩
    replace h : res = .yielded none := by rw [hr] at h; exact h
    subst h
    rcases segNext_yielded_none hr with ⟨-, -, -, hs, -, -⟩
    exact absurd hs (not_le.mpr hstart)
  · intro hs hend
    show segNextChain seg [] (f :: rest) = (.yielded none, some f, rest)
    rw [segNextChain]
    simp [segNextInFile, not_lt.mpr hs, not_lt.mpr hend]

/-- Claim C9 witness: with `start = 1 > 0` no pull yields `None`; with the
window `[-1, 1]` containing 0, a boundary pull yields `None` and leaves
the next file unread. -/
theorem segmentReader_boundary_none_spec_witness :
    (segNext ⟨1, 2, "a"⟩ (some [⟨0, 3⟩]) []).1 ≠ .yielded none
    ∧ segNext ⟨-1, 1, "b"⟩ (some []) [[⟨0, 5⟩]] = (.yielded none, some [⟨0, 5⟩], []) :=
  ⟨(segmentReader_boundary_none_spec ⟨1, 2, "a"⟩ (some [⟨0, 3⟩]) [] [] []).1 (by decide),
    (segmentReader_boundary_none_spec ⟨-1, 1, "b"⟩ none [] [⟨0, 5⟩] []).2
      (by decide) (by decide)⟩

/-- Claim C3: `parse_segment` returns a segment exactly when the string
splits on commas into 2 or 3 fields, the first two parse as numbers, and
both values are `≥ 1e7`; otherwise it returns `None` (the diagnostic it
also prints is I/O, outside this embedding, and the failure is never
fatal).  Concretely, `"1000000000,2000000000,pass1"` parses to
`Segment(1e9, 2e9, "pass1")` and `"500,600"` is rejected. -/
theorem parse_segment_spec :
    (∀ s : String, (parse_segment s).isSome = true ↔
      (((pySplit s ',').length = 2 ∨ (pySplit s ',').length = 3)
        ∧ ∃ a b, pyFloat ((pySplit s ',').getD 0 "") = some a
            ∧ pyFloat ((pySplit s ',').getD 1 "") = some b
            ∧ (10000000 : ℚ) ≤ a ∧ (10000000 : ℚ) ≤ b))
    ∧ parse_segment "1000000000,2000000000,pass1"
        = some ⟨1000000000, 2000000000, "pass1"⟩
    ∧ parse_segment "500,600" = none := by
  refine ⟨fun s => ?_, by decide, by decide⟩
  rcases hsp : pySplit s ',' with _ | ⟨f1, _ | ⟨f2, _ | ⟨f3, _ | ⟨f4, l4⟩⟩⟩⟩
  · simp [parse_segment, hsp]
  · simp [parse_segment, hsp]
  · rcases hf1 : pyFloat f1 with _ | a
    · simp [parse_segment, hsp, hf1]
    · rcases hf2 : pyFloat f2 with _ | b
      · simp [parse_segment, hsp, hf1, hf2]
      · by_cases hth : a < 10000000 ∨ b < 10000000
        · have hps : parse_segment s = none := by
            simp [parse_segment, hsp, hf1, hf2, hth]
          rw [hps]
          simp only [Option.isSome_none, Bool.false_eq_true, false_iff]
          rintro ⟨-, a', b', ha', hb', h1, h2⟩
          simp only [List.getD_cons_zero, List.getD_cons_succ] at ha' hb'
          rw [hf1] at ha'
          rw [hf2] at hb'
          injection ha' with ha'
          injection hb' with hb'
          subst ha'
          subst hb'
          rcases hth with h | h
          · exact absurd h1 (not_le.mpr h)
          · exact absurd h2 (not_le.mpr h)
        · simp only [parse_segment, hsp, hf1, hf2, if_neg hth, Option.isSome_some,
            true_iff, List.getD_cons_zero, List.getD_cons_succ, Option.some.injEq]
          push_neg at hth
          exact ⟨Or.inl rfl, a, b, rfl, rfl, hth.1, hth.2⟩
  · rcases hf1 : pyFloat f1 with _ | a
    · simp [parse_segment, hsp, hf1]
    · rcases hf2 : pyFloat f2 with _ | b
      · simp [parse_segment, hsp, hf1, hf2]
      · by_cases hth : a < 10000000 ∨ b < 10000000
        · have hps : parse_segment s = none := by
            simp [parse_segment, hsp, hf1, hf2, hth]
          rw [hps]
          simp only [Option.isSome_none, Bool.false_eq_true, false_iff]
          rintro ⟨-, a', b', ha', hb', h1, h2⟩
          simp only [List.getD_cons_zero, List.getD_cons_succ] at ha' hb'
          rw [hf1] at ha'
          rw [hf2] at hb'
          injection ha' with ha'
          injection hb' with hb'
          subst ha'
          subst hb'
          rcases hth with h | h
          · exact absurd h1 (not_le.mpr h)
          · exact absurd h2 (not_le.mpr h)
        · simp only [parse_segment, hsp, hf1, hf2, if_neg hth, Option.isSome_some,
            true_iff, List.getD_cons_zero, List.getD_cons_succ, Option.some.injEq]
          push_neg at hth
          exact ⟨Or.inr rfl, a, b, rfl, rfl, hth.1, hth.2⟩
  · have hps : parse_segment s = none := by
      simp [parse_segment, hsp]
    rw [hps]
    simp only [Option.isSome_none, Bool.false_eq_true, false_iff, not_and]
    rintro (hlen | hlen) <;>
      (simp only [List.length_cons] at hlen; omega)

/-- Claim C3 witness: a parsable three-field specification is accepted (via
the characterization), and the two concrete examples hold. -/
theorem parse_segment_spec_witness :
    (parse_segment "1000000000,2000000000,pass1").isSome = true
    ∧ parse_segment "500,600" = none :=
  ⟨(parse_segment_spec.1 "1000000000,2000000000,pass1").mpr
      ⟨by decide, 1000000000, 2000000000, by decide, by decide, by decide, by decide⟩,
    parse_segment_spec.2.2⟩

/-- Claim C4: with zero parsed segment specifications (`--keep` never given,
or every specification malformed and dropped) `choose_reader_list`
bypasses segmentation and returns the plain `FileReaderList`, whose output
is the full record stream of every file in file order; with at least one
parsed specification it returns a `SegmentReaderList` over exactly the
parsed segments. -/
theorem choose_reader_list_spec :
    (∀ (keep : Option (List String)) (files : List (List Msg)),
      parse_segment_args keep = [] →
        choose_reader_list keep files = .fileReaders (FileReaderList.init files)
        ∧ (FileReaderList.init files).fullStream = files.flatten)
    ∧ (∀ (keep : Option (List String)) (files : List (List Msg)),
      parse_segment_args keep ≠ [] →
        choose_reader_list keep files
          = .segmentReaders (SegmentReaderList.init files (parse_segment_args keep)))
    ∧ parse_segment_args none = []
    ∧ (∀ l : List String, (∀ s ∈ l, parse_segment s = none) →
        parse_segment_args (some l) = []) := by
  refine ⟨?_, ?_, rfl, ?_⟩
  · intro keep files h
    exact ⟨by simp [choose_reader_list, h],
      by simp [FileReaderList.init, FileReaderList.fullStream]⟩
  · intro keep files h
    have hl : 0 < (parse_segment_args keep).length := List.length_pos.mpr h
    simp [choose_reader_list, hl]
  · intro l hall
    simp only [parse_segment_args]
    exact List.filterMap_eq_nil_iff.mpr hall

/-- Claim C4 witness: the sole specification `"500,600"` is malformed
(below threshold) and dropped, so the plain chain over one file is
returned and its stream is that file's records; a valid specification
produces the `SegmentReaderList` over the parsed segments. -/
theorem choose_reader_list_spec_witness :
    choose_reader_list (some ["500,600"]) [[⟨0, 1⟩]]
        = .fileReaders (FileReaderList.init [[⟨0, 1⟩]])
    ∧ (FileReaderList.init [[⟨0, 1⟩]]).fullStream = [⟨0, 1⟩]
    ∧ choose_reader_list (some ["10000000,20000000"]) [[⟨0, 1⟩]]
        = .segmentReaders (SegmentReaderList.init [[⟨0, 1⟩]]
            (parse_segment_args (some ["10000000,20000000"]))) :=
  ⟨(choose_reader_list_spec.1 (some ["500,600"]) [[⟨0, 1⟩]] (by decide)).1,
    ((choose_reader_list_spec.1 (some ["500,600"]) [[⟨0, 1⟩]] (by decide)).2).trans
      (by decide),
    choose_reader_list_spec.2.1 (some ["10000000,20000000"]) [[⟨0, 1⟩]] (by decide)⟩

/-- Claim C5: `SegmentReaderList.__init__` advances the chain exactly once
(priming; with no files that advance raises out of the constructor);
`__next__` ends the enumeration as soon as `current()` is empty — however
many segments remain — or the segment list is exhausted, and otherwise
returns a `SegmentReader` bound to the current file reader and the shared
chain. -/
theorem segmentReaderList_spec :
    (∀ (files : List (List Msg)) (segments : List Segment),
      SegmentReaderList.init files segments
        = ((FileReaderList.init files).next).map (fun p => (segments, p.2)))
    ∧ (∀ s : List Segment × FileReaderList,
        SegmentReaderList.next s = none ↔ s.2.current = none ∨ s.1 = [])
    ∧ (∀ (s : List Segment × FileReaderList) (fr : List Msg) (seg : Segment)
        (rest : List Segment), s.2.current = some fr → s.1 = seg :: rest →
          SegmentReaderList.next s = some ((seg, fr), (rest, s.2))) := by
  refine ⟨?_, ?_, ?_⟩
  · intro files segments
    rcases files with _ | ⟨f, rest⟩ <;> rfl
  · intro s
    rcases s with ⟨segs, frl⟩
    rcases hc : frl.current with _ | fr
    · simp [SegmentReaderList.next, hc]
    · rcases segs with _ | ⟨seg, rest⟩ <;> simp [SegmentReaderList.next, hc]
  · intro s fr seg rest hc hs
    rcases s with ⟨segs, frl⟩
    simp only at hs
    subst hs
    simp [SegmentReaderList.next, hc]

/-- Claim C5 witness: with one segment left but the chain's `current()`
empty, the enumeration ends; with a current reader and a pending segment,
the reader bound to that segment, the current reader and the shared chain
is produced; priming with one file is one `next` call on a fresh chain. -/
theorem segmentReaderList_spec_witness :
    SegmentReaderList.next ([⟨1, 2, "a"⟩], ⟨none, []⟩) = none
    ∧ SegmentReaderList.next ([⟨1, 2, "a"⟩], ⟨some [⟨0, 5⟩], []⟩)
        = some ((⟨1, 2, "a"⟩, [⟨0, 5⟩]), ([], ⟨some [⟨0, 5⟩], []⟩))
    ∧ SegmentReaderList.init [[⟨0, 5⟩]] []
        = some ([], ⟨some [⟨0, 5⟩], []⟩) :=
  ⟨(segmentReaderList_spec.2.1 ([⟨1, 2, "a"⟩], ⟨none, []⟩)).mpr (Or.inl rfl),
    segmentReaderList_spec.2.2 ([⟨1, 2, "a"⟩], ⟨some [⟨0, 5⟩], []⟩) [⟨0, 5⟩]
      ⟨1, 2, "a"⟩ [] rfl rfl,
    (segmentReaderList_spec.1 [[⟨0, 5⟩]] []).trans (by decide)⟩

/-- Claim C7: the name `SegmentReader.__init__` fixes before any record is
pulled is `os.path.join(dirname(first_path), segment_name)` — a pure
function of the first file's directory and the segment name, unchanged by
any later pull (so no dependence on later files of a multi-file span). -/
theorem build_segment_name_spec (p₁ p₂ n : String)
    (h : os_path_dirname p₁ = os_path_dirname p₂) :
    build_segment_name p₁ n = os_path_join (os_path_dirname p₁) n
    ∧ build_segment_name p₁ n = build_segment_name p₂ n
    ∧ (∀ (seg : Segment) (frName : String) (frMsgs : List Msg)
        (pending : List (List Msg)),
        (SegmentReaderObj.init seg frName frMsgs pending).name
          = build_segment_name frName seg.name)
    ∧ (∀ r : SegmentReaderObj, r.next.2.name = r.name) := by
  refine ⟨rfl, ?_, fun _ _ _ _ => rfl, fun r => rfl⟩
  show os_path_join (os_path_dirname p₁) n = os_path_join (os_path_dirname p₂) n
  rw [h]

/-- Claim C7 witness: two files in the same directory give the same segment
name, and the spec's example path composes as documented. -/
theorem build_segment_name_spec_witness :
    os_path_dirname "./2023_09_15/foo.tlog" = os_path_dirname "./2023_09_15/bar.tlog"
    ∧ build_segment_name "./2023_09_15/foo.tlog" "transect1" = "./2023_09_15/transect1"
    ∧ build_segment_name "./2023_09_15/foo.tlog" "transect1"
        = build_segment_name "./2023_09_15/bar.tlog" "transect1" :=
  ⟨by decide, by decide,
    (build_segment_name_spec "./2023_09_15/foo.tlog" "./2023_09_15/bar.tlog"
      "transect1" (by decide)).2.1⟩

/-- Claim C8: a `Segment` built with no name gets the default
`f'{start :.0f}_{end :.0f}'`, which contains no path separator; `start`,
`end` and `name` are exactly the constructor arguments and no core
operation mutates a reader's segment after construction. -/
theorem segment_default_name_spec (s e : ℚ) :
    (Segment.init s e none).name.data
        = (formatDotZeroF s).data ++ '_' :: (formatDotZeroF e).data
    ∧ '/' ∉ (Segment.init s e none).name.data
    ∧ (∀ name, (Segment.init s e (some name)).start = s
        ∧ (Segment.init s e (some name)).end_ = e
        ∧ (Segment.init s e (some name)).name = name)
    ∧ (∀ r : SegmentReaderObj, r.next.2.segment = r.segment) :=
  ⟨rfl, segment_default_name_no_separator s e,
    fun _ => ⟨rfl, rfl, rfl⟩, fun _ => rfl⟩

/-- Claim C8 witness: the default name of the window `[1, 2]` is `"1_2"`,
separator-free, and a pull leaves a reader's segment untouched. -/
theorem segment_default_name_spec_witness :
    (Segment.init 1 2 none).name = "1_2"
    ∧ '/' ∉ (Segment.init 1 2 none).name.data
    ∧ (SegmentReaderObj.next ⟨"n", ⟨1, 2, "s"⟩, some [], []⟩).2.segment
        = (⟨1, 2, "s"⟩ : Segment) :=
  ⟨by decide, (segment_default_name_spec 1 2).2.1, by decide⟩

/-- Claim C10: for a non-integer-typed `Param` the `finally: return 0`
overrides the `try` return, so `value_int()` is 0 whatever the value; for
an integer-typed one it is `int(value)`; consequently `comment()`
classifies a non-integer-typed `EK3_SRC*` parameter exactly as if its
value were 0. -/
theorem value_int_spec (p : Param) :
    (p.is_int = false → p.value_int = 0)
    ∧ (p.is_int = true → p.value_int = pyInt p.value)
    ∧ (p.is_int = false → Param.comment p = Param.comment { p with value := 0 }) := by
  refine ⟨fun h => ?_, fun h => ?_, fun h => ?_⟩
  · simp [Param.value_int, h, pyTryFinallyReturn]
  · simp [Param.value_int, h]
  · have h1 : p.value_int = 0 := by
      simp [Param.value_int, h, pyTryFinallyReturn]
    have h' : ({ p with value := 0 } : Param).is_int = false := h
    have h2 : ({ p with value := 0 } : Param).value_int = 0 := by
      simp [Param.value_int, h', pyTryFinallyReturn]
    simp only [Param.comment, h1, h2]

/-- Claim C10 witness: `EK3_SRC1_POSXY` with REAL32 type (9) and value 7/2:
`value_int()` is 0 and `comment()` classifies it as source `None`, the
same classification as with value 0. -/
theorem value_int_spec_witness :
    (⟨"EK3_SRC1_POSXY", 7 / 2, 9⟩ : Param).is_int = false
    ∧ (⟨"EK3_SRC1_POSXY", 7 / 2, 9⟩ : Param).value_int = 0
    ∧ Param.comment ⟨"EK3_SRC1_POSXY", 7 / 2, 9⟩ = .ok (some "None")
    ∧ Param.comment ⟨"EK3_SRC1_POSXY", 7 / 2, 9⟩
        = Param.comment ⟨"EK3_SRC1_POSXY", 0, 9⟩ :=
  ⟨by decide, (value_int_spec ⟨"EK3_SRC1_POSXY", 7 / 2, 9⟩).1 (by decide), by rfl,
    (value_int_spec ⟨"EK3_SRC1_POSXY", 7 / 2, 9⟩).2.2 (by decide)⟩
